import Mathlib

/-!
# Verification of `xs.py` (cross-stream client) against its specification

This file gives a shallow embedding of the transport, frame-stream and
context-resolution layers of `src/xs.py` and proves / refutes the frozen
claims about them.

Strings of the Python source are modelled as `List Char` (named `Str` below);
network and filesystem effects are modelled by passing the externally supplied
data (the raw response bytes, the frame list a read yields, the existence of a
path) as explicit arguments, and Python exceptions by an explicit result type
`PyResult`.  Each definition carries a comment naming the source lines it is
translated from.
-/

/-- Python strings are modelled as lists of characters. -/
abbrev Str := List Char

/-- The Python exceptions that the modelled code paths can raise. -/
inductive PyErr where
  | connectionError
  | valueError
  | attributeError
  deriving DecidableEq, Repr

/-- Outcome of running a piece of Python code: normal termination with a
value, or an exception propagating to the caller. -/
inductive PyResult (α : Type) where
  | ok (a : α)
  | raised (e : PyErr)
  deriving DecidableEq, Repr

/-! ## Python string primitives

Faithful models of the `str`/`bytes` operations the source uses, restricted to
the character repertoire that can actually appear on this HTTP wire (the
exotic Unicode line boundaries and digits Python additionally accepts are out
of the modelled scope; no claim involves them). -/

/-- ASCII whitespace as stripped by Python's `str.strip()` / accepted around
`int(s, 16)`. -/
def isPySpace (c : Char) : Bool :=
  c = ' ' || c = '\t' || c = '\n' || c = '\r' || c = '\x0b' || c = '\x0c'

/-- Python `str.strip()`: remove leading and trailing whitespace. -/
def pyStrip (l : Str) : Str :=
  ((l.dropWhile isPySpace).reverse.dropWhile isPySpace).reverse

/-- Python `str.split(sep)` for a single-character separator `sep`
(also used for `split(sep, 1)[0]`, which is the head of this list). -/
def splitChar (sep : Char) : Str → List Str
  | [] => [[]]
  | c :: rest =>
    if c = sep then [] :: splitChar sep rest
    else
      match splitChar sep rest with
      | s :: ss => (c :: s) :: ss
      | [] => [[c]]

/-- Index of the first occurrence of `sep` in `l` (`none` if absent):
the search underlying Python's `str.find` / `in` / `split`. -/
def firstSubIdx (sep : Str) : Str → Option Nat
  | [] => if sep.isPrefixOf [] then some 0 else none
  | c :: t =>
    if sep.isPrefixOf (c :: t) then some 0
    else (firstSubIdx sep t).map (· + 1)

/-- Python's substring containment test `sep in l`. -/
def containsSub (l sep : Str) : Bool := (firstSubIdx sep l).isSome

/-- Clamp a (possibly negative) Python index into `[0, len]`, the way slices
and `str.find` starts are normalised. -/
def pyBound (len : Nat) (i : Int) : Nat :=
  if i < 0 then (if (len : Int) + i < 0 then 0 else ((len : Int) + i).toNat)
  else min i.toNat len

/-- Python slice `l[a:b]`. -/
def pySlice (l : Str) (a b : Int) : Str :=
  (l.take (pyBound l.length b)).drop (pyBound l.length a)

/-- Python slice `l[a:]`. -/
def pyDropFrom (l : Str) (a : Int) : Str := l.drop (pyBound l.length a)

/-- Python `l.find(sep, start)`: absolute index of the first occurrence of
`sep` at or after `start`. -/
def pyFind (sep l : Str) (start : Int) : Option Nat :=
  (firstSubIdx sep (l.drop (pyBound l.length start))).map (· + pyBound l.length start)

/-- Characters that terminate a line for Python `str.splitlines()`. -/
def isLineBoundary (c : Char) : Bool :=
  c = '\n' || c = '\r' || c = '\x0b' || c = '\x0c' ||
  c = '\x1c' || c = '\x1d' || c = '\x1e' || c = '\x85' ||
  c = '\u2028' || c = '\u2029'

/-- Worker for `pySplitlines`: `cur` is the (reversed) current line and
`afterCR` records whether the previous character was a `\r` (so that a
following `\n` is part of the same `\r\n` boundary and is swallowed). -/
def pySplitlinesAux : Str → Str → Bool → List Str
  | [], cur, _ => if cur = [] then [] else [cur.reverse]
  | c :: rest, cur, afterCR =>
    if afterCR ∧ c = '\n' then pySplitlinesAux rest [] false
    else if c = '\r' then cur.reverse :: pySplitlinesAux rest [] true
    else if isLineBoundary c then cur.reverse :: pySplitlinesAux rest [] false
    else pySplitlinesAux rest (c :: cur) false

/-- Python `str.splitlines()`: split at line boundaries, `\r\n` counting as a
single boundary, with no trailing empty line. -/
def pySplitlines (l : Str) : List Str := pySplitlinesAux l [] false

/-- Value of a hexadecimal digit character, if it is one. -/
def hexDigitVal? (c : Char) : Option Nat :=
  if '0' ≤ c ∧ c ≤ '9' then some (c.toNat - '0'.toNat)
  else if 'a' ≤ c ∧ c ≤ 'f' then some (c.toNat - 'a'.toNat + 10)
  else if 'A' ≤ c ∧ c ≤ 'F' then some (c.toNat - 'A'.toNat + 10)
  else none

/-- Digit run of a Python base-16 literal after the first digit: hex digits
with single underscores allowed between digits. Accumulates the value. -/
def pyHexCore : Nat → Str → Option Nat
  | acc, [] => some acc
  | acc, c :: rest =>
    if c = '_' then
      match rest with
      | [] => none
      | d :: rest2 =>
        match hexDigitVal? d with
        | some v => pyHexCore (16 * acc + v) rest2
        | none => none
    else
      match hexDigitVal? c with
      | some v => pyHexCore (16 * acc + v) rest
      | none => none

/-- A nonempty run of hex digits with single underscores between digits. -/
def pyHexDigits? : Str → Option Nat
  | [] => none
  | c :: rest =>
    match hexDigitVal? c with
    | some v => pyHexCore v rest
    | none => none

/-- Unsigned part of Python `int(s, 16)`: optional `0x`/`0X` prefix (an
underscore may follow the prefix), then the digit run. -/
def pyHexUnsigned? (s : Str) : Option Nat :=
  match s with
  | c0 :: c1 :: r =>
    if c0 = '0' ∧ (c1 = 'x' ∨ c1 = 'X') then
      match r with
      | '_' :: r2 => pyHexDigits? r2
      | _ => pyHexDigits? r
    else pyHexDigits? s
  | _ => pyHexDigits? s

/-- Python `int(s, 16)`: strip whitespace, optional sign, optional `0x`/`0X`
prefix, hex digits with single underscores; `none` models `ValueError`. -/
def pyIntHex? (s : Str) : Option Int :=
  match pyStrip s with
  | [] => none
  | c :: r =>
    if c = '+' then (pyHexUnsigned? r).map Int.ofNat
    else if c = '-' then (pyHexUnsigned? r).map (fun n => -(n : Int))
    else (pyHexUnsigned? (c :: r)).map Int.ofNat

/-- `is_hex_number` (xs.py lines 39-52): true when the part of `s` before the
first `;` (the whole of `s` when there is none) parses with `int(_, 16)`;
the empty string is rejected up front. -/
def is_hex_number (s : Str) : Bool :=
  if s = [] then false
  else
    let s := if s.contains ';' then (splitChar ';' s).headD [] else s
    (pyIntHex? s).isSome

/-! ## Response Decoder (`request`, xs.py lines 55-164)

The socket I/O of `request` is external; what is modelled is the pure
response-parsing part (lines 100-153): splitting the raw response text at the
first `\r\n\r\n`, and manually decoding a chunked body.  The `while` loop of
the chunked decoder does not structurally terminate for adversarial inputs
(a negative parsed chunk size can move `pos` backwards, and CPython would
then loop forever), so the model takes a fuel argument; `none` models a run
that has not terminated within the given fuel.  Positions are `Int` because
Python slice/find indices may go negative. -/

/-- The `\r\n` line terminator. -/
def crlf : Str := ['\r', '\n']

/-- The header/body separator `\r\n\r\n`. -/
def sep4 : Str := ['\r', '\n', '\r', '\n']

/-- The chunked-decoding loop of `request` (xs.py lines 114-150). -/
def decodeChunkedAux : Nat → Str → Int → List Str → Option Str
  | 0, _, _, _ => none
  | fuel + 1, body, pos, lines =>
    if pos < (body.length : Int) then
      match pyFind crlf body pos with
      | none => some (List.intercalate ['\n'] lines)
      | some cse =>
        let line0 := pyStrip (pySlice body pos (cse : Int))
        let sline := if line0.contains ';' then (splitChar ';' line0).headD [] else line0
        match pyIntHex? sline with
        | none => decodeChunkedAux fuel body (pos + 1) lines
        | some size =>
          if size = 0 then some (List.intercalate ['\n'] lines)
          else
            let pos2 : Int := (cse : Int) + 2
            let data := pySlice body pos2 (pos2 + size)
            decodeChunkedAux fuel body (pos2 + size + 2) (lines ++ pySplitlines data)
    else some (List.intercalate ['\n'] lines)

/-- Chunked body reassembly (xs.py lines 112-150): run the loop from
position 0 with an empty `lines` accumulator and join with `\n`.  The fuel
`body.length + 1` suffices for every decode whose positions only move
forward. -/
def decodeChunked (body : Str) : Option Str :=
  decodeChunkedAux (body.length + 1) body 0 []

/-- Response parsing of `request` (xs.py lines 100-153): find the first
`\r\n\r\n`; when absent return the whole text unmodified; otherwise split
into header block and body and decode the body as chunked exactly when the
header block contains the literal `Transfer-Encoding: chunked`. -/
def request_decode_response (response_text : Str) : Option Str :=
  match pyFind sep4 response_text 0 with
  | none => some response_text
  | some header_end =>
    let headers_text := pySlice response_text 0 (header_end : Int)
    let body := pyDropFrom response_text ((header_end : Int) + 4)
    if containsSub headers_text "Transfer-Encoding: chunked".toList then
      decodeChunked body
    else
      some body

/-! ### A well-formed chunked encoder, used to state the round-trip claims.

`encodeChunked` is the standard HTTP/1.1 chunked encoding of a list of chunk
payloads: each chunk as `<hex size>\r\n<data>\r\n`, then the `0\r\n\r\n`
terminator.  It is *not* part of the source; it is the "valid chunked body"
of the claim. -/

/-- The lowercase hex digit character for a value below 16. -/
def hexChar (r : Nat) : Char :=
  if r < 10 then Char.ofNat ('0'.toNat + r) else Char.ofNat ('a'.toNat + r - 10)

/-- Lowercase hexadecimal rendering of a natural number (no leading zeros,
`"0"` for zero), as an HTTP chunk-size line. -/
def natToHex (n : Nat) : Str :=
  if _h : n < 16 then [hexChar n]
  else natToHex (n / 16) ++ [hexChar (n % 16)]
decreasing_by exact Nat.div_lt_self (by omega) (by omega)

/-- One chunk of a chunked body. -/
def encodeChunk (data : Str) : Str := natToHex data.length ++ crlf ++ data ++ crlf

/-- A complete well-formed chunked body with terminating zero chunk. -/
def encodeChunked (chunks : List Str) : Str :=
  (chunks.map encodeChunk).flatten ++ ('0' :: crlf) ++ crlf

/-! ### Basic facts about `firstSubIdx` -/

/-- If `sep` occurs at index `i`, then `i + sep.length ≤ l.length`. -/
theorem firstSubIdx_le {sep l : Str} {i : Nat} (h : firstSubIdx sep l = some i) :
    i + sep.length ≤ l.length := by
  induction l generalizing i with
  | nil =>
    unfold firstSubIdx at h
    split at h
    · rename_i hp
      rw [List.isPrefixOf_iff_prefix] at hp
      have := hp.length_le
      simp_all
    · simp at h
  | cons c t ih =>
    unfold firstSubIdx at h
    split at h
    · rename_i hp
      rw [List.isPrefixOf_iff_prefix] at hp
      have := hp.length_le
      simp at h
      omega
    · simp only [Option.map_eq_some'] at h
      obtain ⟨j, hj, rfl⟩ := h
      have := ih hj
      simp
      omega

/-- `firstSubIdx` finds an occurrence: `sep` is a prefix of `l.drop i`. -/
theorem firstSubIdx_isPrefix {sep l : Str} {i : Nat} (h : firstSubIdx sep l = some i) :
    sep <+: l.drop i := by
  induction l generalizing i with
  | nil =>
    unfold firstSubIdx at h
    split at h
    · rename_i hp
      simp at h
      subst h
      simpa [← List.isPrefixOf_iff_prefix]
    · simp at h
  | cons c t ih =>
    unfold firstSubIdx at h
    split at h
    · rename_i hp
      simp at h
      subst h
      simpa [← List.isPrefixOf_iff_prefix]
    · simp only [Option.map_eq_some'] at h
      obtain ⟨j, hj, rfl⟩ := h
      simpa using ih hj

/-- `firstSubIdx` finds the *first* occurrence: nothing earlier. -/
theorem firstSubIdx_min {sep l : Str} {i : Nat} (h : firstSubIdx sep l = some i) :
    ∀ j, j < i → ¬ sep <+: l.drop j := by
  induction l generalizing i with
  | nil =>
    unfold firstSubIdx at h
    split at h
    · simp at h
      intro j hj
      omega
    · simp at h
  | cons c t ih =>
    unfold firstSubIdx at h
    split at h
    · simp at h
      omega
    · rename_i hp
      simp only [Option.map_eq_some'] at h
      obtain ⟨j', hj', rfl⟩ := h
      intro j hj
      cases j with
      | zero =>
        simpa [List.isPrefixOf_iff_prefix] using hp
      | succ j =>
        simpa using ih hj' j (by omega)

/-- Converse introduction rule: an occurrence at `i` with none earlier. -/
theorem firstSubIdx_eq_some {sep l : Str} {i : Nat}
    (hocc : sep <+: l.drop i) (hmin : ∀ j, j < i → ¬ sep <+: l.drop j) :
    firstSubIdx sep l = some i := by
  induction l generalizing i with
  | nil =>
    cases i with
    | zero =>
      simp at hocc
      simp [firstSubIdx, hocc, List.isPrefixOf_iff_prefix]
    | succ i =>
      simp at hocc
      exact absurd (by simp [hocc]) (hmin 0 (by omega))
  | cons c t ih =>
    cases i with
    | zero =>
      unfold firstSubIdx
      rw [if_pos (by simpa [List.isPrefixOf_iff_prefix] using hocc)]
    | succ i =>
      unfold firstSubIdx
      rw [if_neg (by simpa [List.isPrefixOf_iff_prefix] using hmin 0 (by omega))]
      rw [ih (by simpa using hocc) (fun j hj => by simpa using hmin (j + 1) (by omega))]
      rfl

/-- No occurrence at all gives `none`. -/
theorem firstSubIdx_eq_none {sep l : Str}
    (h : ∀ j, ¬ sep <+: l.drop j) : firstSubIdx sep l = none := by
  induction l with
  | nil =>
    unfold firstSubIdx
    rw [if_neg (by simpa [List.isPrefixOf_iff_prefix] using h 0)]
  | cons c t ih =>
    unfold firstSubIdx
    rw [if_neg (by simpa [List.isPrefixOf_iff_prefix] using h 0)]
    rw [ih (fun j => by simpa using h (j + 1))]
    rfl

/-! ## Frame Stream Reader (`_cat` / `_cat_stream`, xs.py lines 167-319) -/

/-- The option dictionary accepted by `_cat` (xs.py lines 167-184).  Absent
keys are `none`/`false`, matching `options.get(..)` defaults. -/
structure CatOptions where
  follow : Bool := false
  tail : Bool := false
  all : Bool := false
  last_id : Option Str := none
  limit : Option Int := none
  pulse : Option Int := none
  context : Option Str := none
  deriving DecidableEq, Repr

/-- Decimal rendering of an integer, as Python's f-string interpolation of an
`int` produces it. -/
def intToDec (n : Int) : Str := (toString n).toList

/-- Query-parameter assembly of `_cat` (xs.py lines 169-184).  Python
truthiness: numeric options are skipped when `0`, string options when
empty. -/
def catParams (o : CatOptions) : List Str :=
  (if o.follow then ["follow=true".toList] else []) ++
  (if o.tail then ["tail=true".toList] else []) ++
  (if o.all then ["all=true".toList] else []) ++
  (match o.last_id with
   | some s => if s ≠ [] then ["last_id=".toList ++ s] else []
   | none => []) ++
  (match o.limit with
   | some n => if n ≠ 0 then ["limit=".toList ++ intToDec n] else []
   | none => []) ++
  (match o.pulse with
   | some n => if n ≠ 0 then ["pulse=".toList ++ intToDec n] else []
   | none => []) ++
  (match o.context with
   | some c => if c ≠ [] then ["context=".toList ++ c] else []
   | none => [])

/-- Python `"&".join(params)`. -/
def joinAmp : List Str → Str
  | [] => []
  | [s] => s
  | s :: rest => s ++ '&' :: joinAmp rest

/-- The request path built by `_cat` (xs.py lines 186-187): `?` plus the
joined parameters, or empty when there are none. -/
def catPath (o : CatOptions) : Str :=
  let q := joinAmp (catParams o)
  if q = [] then [] else '?' :: q

/-- Per-line classification of `_cat` (xs.py lines 204-209) and of the
follow-mode loops (lines 278-281, 309-311): strip the line, discard it when
it is empty or `is_hex_number`, keep it otherwise. -/
def catLineOut (line : Str) : Option Str :=
  let line := pyStrip line
  if line = [] ∨ is_hex_number line then none else some line

/-- The lines of a decoded non-follow body that survive classification and
are offered to `json.loads` (xs.py lines 204-214).  Frames actually yielded
are the JSON parses of exactly these lines (unparsable ones are dropped). -/
def catKeptLines (content : Str) : List Str :=
  (pySplitlines content).filterMap catLineOut

/-- The pure outcome of `request` (xs.py lines 55-164) given the transport
outcome `net` for its single request/response exchange: a transport failure
is printed and re-raised (lines 155-157); otherwise the raw response text is
parsed.  `none` models the non-terminating chunk decode. -/
def request_run (net : PyResult Str) : Option (PyResult Str) :=
  match net with
  | .raised e => some (.raised e)
  | .ok raw => (request_decode_response raw).map .ok

/-- The non-follow path of `_cat` (xs.py lines 195-218) given the transport
outcome: the whole body is wrapped in `try/except` whose handler only prints
(lines 216-218), so any exception ends the generator normally with the
frames yielded so far ­— for non-follow reads, none, since `request` is the
first statement.  The result is the list of surviving lines. -/
def cat_nonfollow_run (net : PyResult Str) : Option (PyResult (List Str)) :=
  match request_run net with
  | some (.raised _) => some (.ok [])
  | some (.ok content) => some (.ok (catKeptLines content))
  | none => none

/-- The complete-line processing of the follow-mode socket loop
(xs.py lines 276-287): every `\n`-terminated line in `data` is stripped and
classified exactly as in `_cat`; a trailing partial line stays in the buffer.
`data` is the byte stream already past the response headers. -/
def streamKeptLines (data : Str) : List Str :=
  ((splitChar '\n' data).dropLast).filterMap catLineOut

/-- The literal `"context="` split key of `_cat_stream` (lines 254, 297). -/
def ctxEq : Str := "context=".toList

/-- Python `path.split("context=")` (xs.py lines 254, 297). -/
def splitContextEq (l : Str) : List Str :=
  match h : firstSubIdx ctxEq l with
  | none => [l]
  | some i => l.take i :: splitContextEq (l.drop (i + ctxEq.length))
termination_by l.length
decreasing_by
  have := firstSubIdx_le h
  have hc : ctxEq.length = 8 := by decide
  simp
  omega

/-- The options `_cat_stream` passes to `_cat` for the backlog phase
(xs.py lines 253-255 and 296-298): only `context` — recovered by string
surgery on the assembled path — and `follow: False`; every other option is
absent. -/
def backlogOptions (path : Str) : CatOptions :=
  { follow := false
    context :=
      if containsSub path ctxEq then
        some ((splitChar '&' ((splitContextEq path).getD 1 [])).headD [])
      else none }

/-- The frame lines produced by a whole follow-mode call (xs.py lines
249-319): first the backlog — a fresh non-follow `_cat` on
`backlogOptions` — then the lines decoded from the live connection.
`backlogNet` is the transport outcome of the backlog request and `liveData`
the byte stream of the persistent connection past its headers. -/
def catStreamRun (backlogNet : PyResult Str) (liveData : Str) :
    Option (List Str) :=
  match cat_nonfollow_run backlogNet with
  | some (.ok backlog) => some (backlog ++ streamKeptLines liveData)
  | some (.raised _) => none
  | none => none

/-! ## Context Resolver (xs.py lines 322-358)

The frames `_cat({"context": XS_CONTEXT_SYSTEM})` yields are external input
(they come from the store), so `xs_context_collect` is parameterised by that
frame list.  A frame is whatever `json.loads` produced; the fields the fold
reads are modelled directly, with `isDict` flags for the two
`isinstance(..., dict)` guards and `Option` for absent keys (`none` for a
missing key; the spec's data model fixes `id`, `meta.name` and `meta.updates`
to be strings when present). -/

/-- The reserved system context ID (xs.py line 24). -/
def XS_CONTEXT_SYSTEM : Str := "0000000000000000000000000".toList

/-- The `meta` value of a frame as read by the fold. -/
structure Meta where
  isDict : Bool := true
  name : Option Str := none
  updates : Option Str := none
  deriving DecidableEq, Repr

/-- A decoded frame as read by the fold (`frame.get(..)` on missing keys
gives `none`). -/
structure Frame where
  isDict : Bool := true
  topic : Option Str := none
  id : Option Str := none
  meta : Option Meta := none
  deriving DecidableEq, Repr

/-- Python dict assignment `d[k] = v` on an insertion-ordered dict modelled
as an association list: overwrite in place when the key exists, else append. -/
def dictSet (d : List (Option Str × Str)) (k : Option Str) (v : Str) :
    List (Option Str × Str) :=
  if d.any (fun p => p.1 = k) then
    d.map (fun p => if p.1 = k then (p.1, v) else p)
  else d ++ [(k, v)]

/-- One loop iteration of `xs_context_collect` (xs.py lines 329-341). -/
def collectStep (contexts : List (Option Str × Str)) (frame : Frame) :
    List (Option Str × Str) :=
  if frame.isDict = false then contexts
  else if frame.topic = some "xs.context".toList then
    let meta := frame.meta.getD {}
    if meta.isDict then
      match meta.name with
      | some nm => dictSet contexts frame.id nm
      | none => contexts
    else contexts
  else if frame.topic = some "xs.annotate".toList then
    let meta := frame.meta.getD {}
    if meta.isDict then
      match meta.updates, meta.name with
      | some u, some nm =>
        if contexts.any (fun p => p.1 = some u) then dictSet contexts (some u) nm
        else contexts
      | _, _ => contexts
    else contexts
  else contexts

/-- The folded context dictionary of `xs_context_collect` (xs.py lines
322-345), seeded with the system context. -/
def collectDict (frames : List Frame) : List (Option Str × Str) :=
  frames.foldl collectStep [(some XS_CONTEXT_SYSTEM, "system".toList)]

/-- One entry of the list `xs_context_collect` returns. -/
structure CtxEntry where
  id : Option Str
  name : Str
  deriving DecidableEq, Repr

/-- `xs_context_collect` (xs.py lines 322-345): the dict as a list of
`{"id": k, "name": v}` records, in insertion order. -/
def xs_context_collect (frames : List Frame) : List CtxEntry :=
  (collectDict frames).map (fun p => ⟨p.1, p.2⟩)

/-- The `for`/`raise` search of `xs_context` (xs.py lines 353-358): first
entry whose `id` or `name` equals `selected`, else `ValueError`. -/
def xs_contextFind : List CtxEntry → Str → PyResult (Option Str)
  | [], _ => .raised .valueError
  | c :: rest, selected =>
    if c.id = some selected ∨ c.name = selected then .ok c.id
    else xs_contextFind rest selected

/-- `xs_context` (xs.py lines 348-358).  `frames` is what the collect read
yields, `env` the value of `XS_CONTEXT` in the environment; `selected = none`
models the argument defaulting to `None`, in which case the environment (or
the system sentinel) is returned without any store read. -/
def xs_context (frames : List Frame) (env : Option Str) :
    Option Str → PyResult (Option Str)
  | none => .ok (some (env.getD XS_CONTEXT_SYSTEM))
  | some selected => xs_contextFind (xs_context_collect frames) selected

/-! ## Store Facade pieces the claims need -/

/-- The context-resolution prologue of `XS.cat` (xs.py lines 381-393): `ctx`
stays `None` unless `all` is unset and a context was supplied, in which case
`xs_context` resolves it (possibly raising); the options dict passed on to
`_cat` carries the resolved `ctx`. -/
def XScat_options (frames : List Frame) (env : Option Str)
    (follow : Bool) (pulse : Option Int) (tail : Bool) (last_id : Option Str)
    (limit : Option Int) (context : Option Str) (all : Bool) :
    PyResult CatOptions :=
  if ¬ all ∧ context.isSome then
    match xs_context frames env context with
    | .raised e => .raised e
    | .ok ctx =>
      .ok { follow := follow, tail := tail, all := all, last_id := last_id,
            limit := limit, pulse := pulse, context := ctx }
  else
    .ok { follow := follow, tail := tail, all := all, last_id := last_id,
          limit := limit, pulse := pulse, context := none }

/-- Python attribute access `resp.read()` where `resp` is the `str` returned
by `request`: `str` has no `read` method, so this raises `AttributeError`
unconditionally. -/
def strRead (_resp : Str) : PyResult Str := .raised .attributeError

/-- One CAS-file iteration of `import_store` (xs.py lines 629-642):
`expected` is the base64-decoded filename, `storeResp` the string `request`
returned for the `POST cas`; the code then evaluates `resp.read().decode()`
and compares it with `expected`, raising `ValueError` on mismatch. -/
def importCasStep (expected : Str) (storeResp : Str) : PyResult Unit :=
  match strRead storeResp with
  | .raised e => .raised e
  | .ok got => if got ≠ expected then .raised .valueError else .ok ()

/-- Observable effects of `XS.export` in order (print, directory creation,
file writes, store requests). -/
inductive Effect where
  | printMsg (s : Str)
  | makedirs (p : Str)
  | writeFile (p : Str) (content : Str)
  | storeRequest (method : Str) (path : Str)
  deriving DecidableEq, Repr

/-- `XS.export` (xs.py lines 583-617) as its effect trace.  `path` is the
export destination, `pathExists` the `os.path.exists(path)` answer, `frames`
the serialised lines `_cat({})` yields (network input), `frameHash` the
truthy `"hash"` field of each such line after re-parsing `frames.jsonl`, and
`casContent`/`b64` the CAS payloads and the base64 filename encoding.  The
read-back of the just-written `frames.jsonl` yields the frames just written;
Python's `set` iteration order is modelled as first-occurrence order. -/
def exportRun (path : Str) (pathExists : Bool) (frames : List Str)
    (frameHash : Str → Option Str) (casContent : Str → Str)
    (b64 : Str → Str) : List Effect :=
  if pathExists then [.printMsg "path exists".toList]
  else
    .makedirs (path ++ "/cas".toList) ::
    .storeRequest "GET".toList [] ::
    .writeFile (path ++ "/frames.jsonl".toList)
      ((frames.map (fun f => f ++ ['\n'])).flatten) ::
    ((frames.filterMap frameHash).dedup.map (fun h =>
      [Effect.storeRequest "GET".toList ("cas/".toList ++ h),
       Effect.writeFile (path ++ "/cas/".toList ++ b64 h) (casContent h)])).flatten

/-! ## Helper lemmas about the string primitives -/

theorem dropWhile_eq_self_of {p : Char → Bool} {l : Str}
    (h : ∀ c ∈ l, p c = false) : l.dropWhile p = l := by
  cases l with
  | nil => rfl
  | cons c t => simp [List.dropWhile_cons, h c (List.mem_cons_self c t)]

/-- Stripping a string with no whitespace characters is the identity. -/
theorem pyStrip_eq_self {l : Str} (h : ∀ c ∈ l, isPySpace c = false) :
    pyStrip l = l := by
  unfold pyStrip
  rw [dropWhile_eq_self_of h,
    dropWhile_eq_self_of (fun c hc => h c (List.mem_reverse.mp hc)),
    List.reverse_reverse]

theorem pySplitlinesAux_no_boundary {l : Str}
    (h : ∀ c ∈ l, isLineBoundary c = false) :
    ∀ (cur : Str) (af : Bool), cur.reverse ++ l ≠ [] →
      pySplitlinesAux l cur af = [cur.reverse ++ l] := by
  induction l with
  | nil =>
    intro cur af hne
    simp only [List.append_nil] at hne ⊢
    unfold pySplitlinesAux
    rw [if_neg (by simpa using hne)]
  | cons c t ih =>
    intro cur af _
    have hc : isLineBoundary c = false := h c (List.mem_cons_self c t)
    have hcn : c ≠ '\n' := by
      rintro rfl
      simp [isLineBoundary] at hc
    have hcr : c ≠ '\r' := by
      rintro rfl
      simp [isLineBoundary] at hc
    unfold pySplitlinesAux
    rw [if_neg (by simp [hcn]), if_neg hcr, if_neg (by simp [hc])]
    rw [ih (fun d hd => h d (List.mem_cons_of_mem c hd)) (c :: cur) false (by simp)]
    simp

/-- `splitlines` of a nonempty string with no line boundaries is just the
string. -/
theorem pySplitlines_single {d : Str} (hne : d ≠ [])
    (h : ∀ c ∈ d, isLineBoundary c = false) : pySplitlines d = [d] := by
  unfold pySplitlines
  rw [pySplitlinesAux_no_boundary h [] false (by simpa using hne)]
  rfl

/-- A character that is a hex digit is not any character that is not one. -/
theorem hexDigitVal?_ne {c z : Char} (hz : hexDigitVal? z = none)
    (h : (hexDigitVal? c).isSome = true) : c ≠ z := by
  rintro rfl
  rw [hz] at h
  simp at h

theorem hexDigit_not_space {c : Char} (h : (hexDigitVal? c).isSome = true) :
    isPySpace c = false := by
  simp [isPySpace,
    hexDigitVal?_ne (show hexDigitVal? ' ' = none by decide) h,
    hexDigitVal?_ne (show hexDigitVal? '\t' = none by decide) h,
    hexDigitVal?_ne (show hexDigitVal? '\n' = none by decide) h,
    hexDigitVal?_ne (show hexDigitVal? '\r' = none by decide) h,
    hexDigitVal?_ne (show hexDigitVal? '\x0b' = none by decide) h,
    hexDigitVal?_ne (show hexDigitVal? '\x0c' = none by decide) h]

theorem hexDigit_not_boundary {c : Char} (h : (hexDigitVal? c).isSome = true) :
    isLineBoundary c = false := by
  simp [isLineBoundary,
    hexDigitVal?_ne (show hexDigitVal? '\n' = none by decide) h,
    hexDigitVal?_ne (show hexDigitVal? '\r' = none by decide) h,
    hexDigitVal?_ne (show hexDigitVal? '\x0b' = none by decide) h,
    hexDigitVal?_ne (show hexDigitVal? '\x0c' = none by decide) h,
    hexDigitVal?_ne (show hexDigitVal? '\x1c' = none by decide) h,
    hexDigitVal?_ne (show hexDigitVal? '\x1d' = none by decide) h,
    hexDigitVal?_ne (show hexDigitVal? '\x1e' = none by decide) h,
    hexDigitVal?_ne (show hexDigitVal? '\x85' = none by decide) h,
    hexDigitVal?_ne (show hexDigitVal? '\u2028' = none by decide) h,
    hexDigitVal?_ne (show hexDigitVal? '\u2029' = none by decide) h]

/-! ### The hexadecimal round trip `pyIntHex? (natToHex n) = some n` -/

theorem natToHex_ne_nil (n : Nat) : natToHex n ≠ [] := by
  rw [natToHex]
  split <;> simp

theorem natToHex_all_hex (n : Nat) :
    ∀ c ∈ natToHex n, (hexDigitVal? c).isSome = true := by
  induction n using Nat.strong_induction_on with
  | _ n ih =>
    rw [natToHex]
    split
    · rename_i h
      interval_cases n <;> decide
    · rename_i h
      intro c hc
      rcases List.mem_append.mp hc with hc | hc
      · exact ih (n / 16) (Nat.div_lt_self (by omega) (by omega)) c hc
      · have h16 : n % 16 < 16 := Nat.mod_lt _ (by omega)
        simp only [List.mem_singleton] at hc
        subst hc
        set r := n % 16 with hr
        interval_cases r <;> decide

theorem hexDigitVal?_hexChar {r : Nat} (h : r < 16) :
    hexDigitVal? (hexChar r) = some r := by
  interval_cases r <;> decide

theorem pyHexCore_all_hex {l : Str}
    (h : ∀ c ∈ l, (hexDigitVal? c).isSome = true) (acc : Nat) :
    pyHexCore acc l =
      some (l.foldl (fun a c => 16 * a + (hexDigitVal? c).getD 0) acc) := by
  induction l generalizing acc with
  | nil => rfl
  | cons c t ih =>
    have hc := h c (List.mem_cons_self c t)
    have hcu : c ≠ '_' := hexDigitVal?_ne (by decide) hc
    obtain ⟨v, hv⟩ := Option.isSome_iff_exists.mp hc
    unfold pyHexCore
    rw [if_neg hcu, hv]
    simp only [List.foldl_cons, hv, Option.getD_some]
    exact ih (fun d hd => h d (List.mem_cons_of_mem c hd)) (16 * acc + v)

theorem natToHex_foldl (n : Nat) :
    ∀ acc : Nat,
      (natToHex n).foldl (fun a c => 16 * a + (hexDigitVal? c).getD 0) acc =
        acc * 16 ^ (natToHex n).length + n := by
  induction n using Nat.strong_induction_on with
  | _ n ih =>
    intro acc
    rw [natToHex]
    split
    · rename_i h
      simp [hexDigitVal?_hexChar h]
      ring
    · rename_i h
      rw [List.foldl_append]
      rw [ih (n / 16) (Nat.div_lt_self (by omega) (by omega)) acc]
      have h16 : n % 16 < 16 := Nat.mod_lt _ (by omega)
      have hdm : 16 * (n / 16) + n % 16 = n := Nat.div_add_mod n 16
      simp only [List.foldl_cons, List.foldl_nil, hexDigitVal?_hexChar h16,
        Option.getD_some, List.length_append, List.length_cons, List.length_nil,
        pow_succ]
      calc 16 * (acc * 16 ^ (natToHex (n / 16)).length + n / 16) + n % 16
          = acc * (16 ^ (natToHex (n / 16)).length * 16) + (16 * (n / 16) + n % 16) := by
            ring
        _ = acc * (16 ^ (natToHex (n / 16)).length * 16) + n := by rw [hdm]

theorem pyHexDigits?_all_hex {l : Str} (hne : l ≠ [])
    (h : ∀ c ∈ l, (hexDigitVal? c).isSome = true) :
    pyHexDigits? l = some (l.foldl (fun a c => 16 * a + (hexDigitVal? c).getD 0) 0) := by
  cases l with
  | nil => exact absurd rfl hne
  | cons c t =>
    have hc := h c (List.mem_cons_self c t)
    obtain ⟨v, hv⟩ := Option.isSome_iff_exists.mp hc
    have hstep : pyHexDigits? (c :: t) = pyHexCore v t := by
      simp only [pyHexDigits?, hv]
    rw [hstep, pyHexCore_all_hex (fun d hd => h d (List.mem_cons_of_mem c hd)) v]
    simp [hv]

theorem pyHexUnsigned?_all_hex {l : Str} (hne : l ≠ [])
    (h : ∀ c ∈ l, (hexDigitVal? c).isSome = true) :
    pyHexUnsigned? l = pyHexDigits? l := by
  cases l with
  | nil => exact absurd rfl hne
  | cons c t =>
    cases t with
    | nil => rfl
    | cons c1 t2 =>
      have hx : c1 ≠ 'x' :=
        hexDigitVal?_ne (by decide) (h c1 (by simp))
      have hX : c1 ≠ 'X' :=
        hexDigitVal?_ne (by decide) (h c1 (by simp))
      simp only [pyHexUnsigned?]
      rw [if_neg (by rintro ⟨-, hx' | hX'⟩ <;> simp_all)]

/-- The round trip: the decimal value of the hex rendering. -/
theorem pyIntHex?_natToHex (n : Nat) : pyIntHex? (natToHex n) = some (n : Int) := by
  have hhex := natToHex_all_hex n
  have hstrip : pyStrip (natToHex n) = natToHex n :=
    pyStrip_eq_self (fun c hc => hexDigit_not_space (hhex c hc))
  obtain ⟨c, r, hl⟩ : ∃ c r, natToHex n = c :: r := by
    rcases hx : natToHex n with _ | ⟨c, r⟩
    · exact absurd hx (natToHex_ne_nil n)
    · exact ⟨c, r, rfl⟩
  have hc : (hexDigitVal? c).isSome = true :=
    hhex c (by rw [hl]; exact List.mem_cons_self c r)
  have hplus : c ≠ '+' := hexDigitVal?_ne (by decide) hc
  have hminus : c ≠ '-' := hexDigitVal?_ne (by decide) hc
  have hstep : pyIntHex? (natToHex n) = (pyHexUnsigned? (natToHex n)).map Int.ofNat := by
    simp only [pyIntHex?]
    rw [hstrip]
    simp only [hl]
    rw [if_neg hplus, if_neg hminus]
  rw [hstep, pyHexUnsigned?_all_hex (natToHex_ne_nil n) hhex,
    pyHexDigits?_all_hex (natToHex_ne_nil n) hhex, natToHex_foldl n 0]
  simp

/-! ### Position arithmetic for slices and finds at natural positions -/

theorem pyBound_natCast (len k : Nat) : pyBound len (k : Int) = min k len := by
  simp [pyBound]

theorem pyBound_natCast_le {len k : Nat} (h : k ≤ len) :
    pyBound len (k : Int) = k := by
  rw [pyBound_natCast]
  omega

theorem pyFind_natCast (sep l : Str) {p : Nat} (hp : p ≤ l.length) :
    pyFind sep l (p : Int) = (firstSubIdx sep (l.drop p)).map (· + p) := by
  rw [pyFind, pyBound_natCast_le hp]

theorem pySlice_natCast (l : Str) {a b : Nat} (ha : a ≤ l.length)
    (hb : b ≤ l.length) : pySlice l (a : Int) (b : Int) = (l.take b).drop a := by
  rw [pySlice, pyBound_natCast_le ha, pyBound_natCast_le hb]

/-- Slicing out a middle segment by its exact bounds. -/
theorem pySlice_middle (pre mid post : Str) :
    pySlice (pre ++ mid ++ post) (pre.length : Int)
      ((pre.length + mid.length : Nat) : Int) = mid := by
  rw [pySlice_natCast _ (by simp) (by simp only [List.length_append]; omega)]
  have ht : (pre ++ mid ++ post).take (pre.length + mid.length) = pre ++ mid :=
    List.take_left' (by simp)
  rw [ht, List.drop_left]

theorem pyDropFrom_natCast (l : Str) {a : Nat} (ha : a ≤ l.length) :
    pyDropFrom l (a : Int) = l.drop a := by
  rw [pyDropFrom, pyBound_natCast_le ha]

/-- A prefix of an append that fits inside the left part is a prefix of it. -/
theorem prefix_append_left {p x y : Str} (hp : p <+: x ++ y)
    (hl : p.length ≤ x.length) : p <+: x := by
  rw [List.prefix_iff_eq_take] at hp ⊢
  rwa [List.take_append_of_le_length hl] at hp

/-- First occurrence of `sep` in `a ++ sep ++ b` is at `a.length`, provided
no occurrence starts inside `a` (a condition on `a ++ sep` only). -/
theorem firstSubIdx_append {sep a b : Str}
    (h : ∀ i, i < a.length → ¬ sep <+: (a ++ sep).drop i) :
    firstSubIdx sep (a ++ sep ++ b) = some a.length := by
  apply firstSubIdx_eq_some
  · rw [List.append_assoc, List.drop_left]
    exact List.prefix_append sep b
  · intro j hj hpre
    apply h j hj
    rw [List.drop_append_of_le_length (by omega)]
    rw [List.append_assoc, List.drop_append_of_le_length (by omega)] at hpre
    rw [← List.append_assoc] at hpre
    exact prefix_append_left hpre (by simp only [List.length_append]; omega)

/-- If `sep` occurs nowhere (as reported by `containsSub = false`), then
`firstSubIdx` is `none`. -/
theorem firstSubIdx_eq_none_of_not_contains {l sep : Str}
    (h : containsSub l sep = false) : firstSubIdx sep l = none := by
  unfold containsSub at h
  rcases hx : firstSubIdx sep l with _ | i
  · rfl
  · rw [hx] at h
    simp at h

/-- A first occurrence of `['\r', '\n']` right after a CR-free prefix. -/
theorem firstSubIdx_crlf_after {a rest : Str} (h : ∀ c ∈ a, c ≠ '\r') :
    firstSubIdx crlf (a ++ '\r' :: '\n' :: rest) = some a.length := by
  apply firstSubIdx_eq_some
  · rw [List.drop_left]
    simp [crlf, List.cons_prefix_cons]
  · intro j hj hpre
    rw [List.drop_append_of_le_length (by omega)] at hpre
    rcases hd : a.drop j with _ | ⟨d, ds⟩
    · have := congrArg List.length hd
      simp at this
      omega
    · rw [hd] at hpre
      simp only [crlf, List.cons_append, List.cons_prefix_cons] at hpre
      have hdm : d ∈ a := by
        have : d ∈ a.drop j := by rw [hd]; exact List.mem_cons_self d _
        exact List.mem_of_mem_drop this
      exact h d hdm hpre.1.symm

theorem pyFind_zero (sep l : Str) : pyFind sep l 0 = firstSubIdx sep l := by
  have h0 : pyBound l.length 0 = 0 := by simp [pyBound]
  simp [pyFind, h0]

/-! ## Claim theorems -/

theorem catLineOut_some {raw l : Str} (h : catLineOut raw = some l) :
    l ≠ [] ∧ is_hex_number l = false := by
  simp only [catLineOut] at h
  split at h
  · exact absurd h (by simp)
  · rename_i hcond
    push_neg at hcond
    obtain ⟨h1, h2⟩ := hcond
    obtain rfl : pyStrip raw = l := by injection h
    exact ⟨h1, by simpa using h2⟩

/-- C7: in both the non-follow reader and the follow-mode line loop, every
line that survives classification — the only lines ever offered for yielding
— is non-empty after stripping and is not an `is_hex_number` line (hex chunk
artifacts such as `"1a;foo"` are discarded without error). -/
theorem reader_never_yields_hex_or_empty (content data l : Str) :
    (l ∈ catKeptLines content → l ≠ [] ∧ is_hex_number l = false) ∧
    (l ∈ streamKeptLines data → l ≠ [] ∧ is_hex_number l = false) := by
  constructor
  · intro hl
    obtain ⟨raw, -, hraw⟩ := List.mem_filterMap.mp hl
    exact catLineOut_some hraw
  · intro hl
    obtain ⟨raw, -, hraw⟩ := List.mem_filterMap.mp hl
    exact catLineOut_some hraw

/-- Witness for C7 at a concrete body: `"1a;foo"` is a hex line, the
classifier keeps only `"hello"`, and the kept line is non-empty non-hex. -/
theorem reader_never_yields_hex_or_empty_witness :
    is_hex_number "1a;foo".toList = true ∧
    "hello".toList ∈ catKeptLines "1a;foo\nhello\n".toList ∧
    "hello".toList ∈ streamKeptLines "1a;foo\nhello\npartial".toList ∧
    ("hello".toList ≠ [] ∧ is_hex_number "hello".toList = false) ∧
    ("1a;foo".toList ∉ catKeptLines "1a;foo\nhello\n".toList) := by
  refine ⟨by decide, by decide, by decide, ?_, by decide⟩
  exact (reader_never_yields_hex_or_empty "1a;foo\nhello\n".toList
    "1a;foo\nhello\npartial".toList "hello".toList).1 (by decide)

/-- C2 counterexample: a socket failure during a non-follow `_cat` read does
*not* raise to the caller; `_cat`'s blanket `except` (xs.py lines 216-218)
prints and swallows it, so the caller sees a normally terminated, empty
iteration rather than an exception. -/
theorem cat_swallows_connection_error_counterexample :
    cat_nonfollow_run (.raised .connectionError) = some (.ok []) ∧
    (cat_nonfollow_run (.raised .connectionError)) ≠
      some (.raised .connectionError) := by
  exact ⟨rfl, by decide⟩

/-- C2 amended: `request` itself re-raises transport failures (xs.py lines
155-157), but `_cat` catches every exception, prints a diagnostic and
terminates the generator normally, so the caller of a non-follow read gets a
normally-terminated (empty) result instead of the exception. -/
theorem request_raises_cat_swallows (e : PyErr) :
    request_run (.raised e) = some (.raised e) ∧
    cat_nonfollow_run (.raised e) = some (.ok []) :=
  ⟨rfl, rfl⟩

theorem request_raises_cat_swallows_witness :
    request_run (.raised .connectionError) = some (.raised .connectionError) ∧
    cat_nonfollow_run (.raised .connectionError) = some (.ok []) :=
  request_raises_cat_swallows .connectionError

/-- C4: the CAS phase of `import_store` calls `.read()` on the `str` returned
by `request` (xs.py line 639), so it raises `AttributeError` on every CAS
file — even when the store's returned hash equals the expected
filename-derived hash — and never reaches the hash comparison. -/
theorem import_cas_always_attribute_error (expected storeResp : Str) :
    importCasStep expected storeResp = .raised .attributeError := rfl

theorem import_cas_always_attribute_error_witness :
    importCasStep "abc".toList "abc".toList = .raised .attributeError :=
  import_cas_always_attribute_error "abc".toList "abc".toList

/-- C9: a response without the `\r\n\r\n` separator is returned unmodified;
a response `headers ++ "\r\n\r\n" ++ body` whose header block does not
contain the separator and lacks `Transfer-Encoding: chunked` decodes to
exactly the bytes after the first separator, verbatim. -/
theorem nonchunked_body_verbatim (t hd b : Str) :
    (firstSubIdx sep4 t = none → request_decode_response t = some t) ∧
    ((∀ i, i < hd.length → ¬ sep4 <+: (hd ++ sep4).drop i) →
      containsSub hd "Transfer-Encoding: chunked".toList = false →
      request_decode_response (hd ++ sep4 ++ b) = some b) := by
  constructor
  · intro hnone
    unfold request_decode_response
    rw [pyFind_zero, hnone]
  · intro hocc hte
    have hslice : pySlice (hd ++ (sep4 ++ b)) (0 : Int) ((hd.length : Nat) : Int) = hd := by
      have := pySlice_middle [] hd (sep4 ++ b)
      simpa using this
    have hdrop : pyDropFrom (hd ++ (sep4 ++ b)) ((hd.length : Int) + 4) = b := by
      have h4 : ((hd.length : Int) + 4) = ((hd.length + 4 : Nat) : Int) := by push_cast; ring
      rw [h4, pyDropFrom_natCast _ (by simp [sep4])]
      rw [← List.append_assoc]
      rw [List.drop_left' (by simp [sep4])]
    unfold request_decode_response
    rw [pyFind_zero, firstSubIdx_append hocc]
    simp [hslice, hdrop]
    intro htc
    simp at hte
    exact absurd htc (by simp [hte])

/-- Witness for C9 on a concrete 200 response and a concrete separator-free
fragment. -/
theorem nonchunked_body_verbatim_witness :
    firstSubIdx sep4 "partial response".toList = none ∧
    request_decode_response "partial response".toList =
      some "partial response".toList ∧
    request_decode_response
        ("HTTP/1.1 200 OK\r\nContent-Type: text/plain".toList ++ sep4 ++
          "hello body".toList) = some "hello body".toList := by
  refine ⟨by decide, ?_, ?_⟩
  · exact (nonchunked_body_verbatim "partial response".toList [] []).1 (by decide)
  · exact (nonchunked_body_verbatim [] "HTTP/1.1 200 OK\r\nContent-Type: text/plain".toList
      "hello body".toList).2 (by decide) (by decide)

/-- C10: when the destination path exists, `XS.export` only prints
`"path exists"` and returns — no directory is created, no file written, no
store request issued; when the path does not exist, the `cas/` directory and
`frames.jsonl` are created. -/
theorem export_existing_path_untouched (path : Str) (frames : List Str)
    (frameHash : Str → Option Str) (casContent : Str → Str) (b64 : Str → Str) :
    exportRun path true frames frameHash casContent b64 =
      [.printMsg "path exists".toList] ∧
    Effect.makedirs (path ++ "/cas".toList) ∈
      exportRun path false frames frameHash casContent b64 ∧
    Effect.writeFile (path ++ "/frames.jsonl".toList)
        ((frames.map (fun f => f ++ ['\n'])).flatten) ∈
      exportRun path false frames frameHash casContent b64 := by
  refine ⟨rfl, ?_, ?_⟩ <;> simp [exportRun]

/-- An `xs.context` creation frame with id `i` and `meta.name` `nm`. -/
def mkContextFrame (i : Option Str) (nm : Str) : Frame :=
  { topic := some "xs.context".toList, id := i, meta := some { name := some nm } }

/-- An `xs.annotate` rename frame with `meta.updates` `u` and `meta.name` `nm`. -/
def mkAnnotateFrame (u nm : Str) : Frame :=
  { topic := some "xs.annotate".toList,
    meta := some { updates := some u, name := some nm } }

/-- C5: `xs_context_collect` folds in stream order — an `xs.context` frame
binds `frame.id` to `meta.name` (Python dict assignment), an `xs.annotate`
frame overwrites an existing key and is ignored for an unknown key, and on
the concrete rename history `[context C1 ↦ "a", annotate C1 ↦ "b"]` the
result maps `C1` to `"b"`, not `"a"`. -/
theorem collect_fold_stream_order (fs : List Frame) (i : Option Str)
    (u nm : Str) :
    collectDict (fs ++ [mkContextFrame i nm]) = dictSet (collectDict fs) i nm ∧
    collectDict (fs ++ [mkAnnotateFrame u nm]) =
      (if (collectDict fs).any (fun p => p.1 = some u) then
        dictSet (collectDict fs) (some u) nm
      else collectDict fs) ∧
    xs_context_collect
        [mkContextFrame (some "C1".toList) "a".toList,
         mkAnnotateFrame "C1".toList "b".toList] =
      [⟨some XS_CONTEXT_SYSTEM, "system".toList⟩,
       ⟨some "C1".toList, "b".toList⟩] := by
  refine ⟨?_, ?_, by decide⟩
  · rw [collectDict, List.foldl_append]
    rfl
  · rw [collectDict, List.foldl_append]
    rfl

/-- Witness for C5 at concrete inputs: the context binding, the overwrite,
and the unknown-id no-op. -/
theorem collect_fold_stream_order_witness :
    collectDict ([] ++ [mkContextFrame (some "C1".toList) "a".toList]) =
      dictSet (collectDict []) (some "C1".toList) "a".toList ∧
    collectDict ([mkContextFrame (some "C1".toList) "a".toList] ++
        [mkAnnotateFrame "zz".toList "b".toList]) =
      (if (collectDict [mkContextFrame (some "C1".toList) "a".toList]).any
          (fun p => p.1 = some "zz".toList) then
        dictSet (collectDict [mkContextFrame (some "C1".toList) "a".toList])
          (some "zz".toList) "b".toList
      else collectDict [mkContextFrame (some "C1".toList) "a".toList]) := by
  exact ⟨(collect_fold_stream_order [] (some "C1".toList) "zz".toList "a".toList).1,
    (collect_fold_stream_order [mkContextFrame (some "C1".toList) "a".toList]
      (some "C1".toList) "zz".toList "b".toList).2.1⟩

/-- The for-loop search of `xs_context` is the first entry matching on id or
name. -/
theorem xs_contextFind_eq_find? (cs : List CtxEntry) (s : Str) :
    xs_contextFind cs s =
      (match cs.find? (fun c => c.id = some s ∨ c.name = s) with
       | some c => .ok c.id
       | none => .raised .valueError) := by
  induction cs with
  | nil => rfl
  | cons c rest ih =>
    by_cases hc : c.id = some s ∨ c.name = s
    · rw [List.find?_cons_of_pos _ (by simpa using hc)]
      unfold xs_contextFind
      rw [if_pos hc]
    · rw [List.find?_cons_of_neg _ (by simpa using hc)]
      unfold xs_contextFind
      rw [if_neg hc, ih]

/-- C6: with no argument, `resolve` returns the process-wide selection
(environment, defaulting to the system sentinel) without consulting the
store (the result does not depend on the stream contents); with an argument
it performs a fresh collect and returns the id of the first entry whose id
or name matches, raising a not-found `ValueError` otherwise.  After the
rename `C1: "a" → "b"`, resolving `"a"` fails while `"b"` and `"C1"` both
resolve to `C1`. -/
theorem resolve_first_match_spec (frames : List Frame) (env : Option Str)
    (s : Str) :
    xs_context frames env none = .ok (some (env.getD XS_CONTEXT_SYSTEM)) ∧
    xs_context frames env (some s) =
      (match (xs_context_collect frames).find?
          (fun c => c.id = some s ∨ c.name = s) with
       | some c => .ok c.id
       | none => .raised .valueError) ∧
    xs_context [mkContextFrame (some "C1".toList) "a".toList,
        mkAnnotateFrame "C1".toList "b".toList] env (some "a".toList) =
      .raised .valueError ∧
    xs_context [mkContextFrame (some "C1".toList) "a".toList,
        mkAnnotateFrame "C1".toList "b".toList] env (some "b".toList) =
      .ok (some "C1".toList) ∧
    xs_context [mkContextFrame (some "C1".toList) "a".toList,
        mkAnnotateFrame "C1".toList "b".toList] env (some "C1".toList) =
      .ok (some "C1".toList) :=
  ⟨rfl, xs_contextFind_eq_find? _ s, rfl, rfl, rfl⟩

/-- Witness for C6 at concrete inputs. -/
theorem resolve_first_match_spec_witness :
    xs_context [] none none = .ok (some XS_CONTEXT_SYSTEM) ∧
    xs_context [mkContextFrame (some "C1".toList) "a".toList,
        mkAnnotateFrame "C1".toList "b".toList] none (some "b".toList) =
      .ok (some "C1".toList) := by
  exact ⟨(resolve_first_match_spec [] none "b".toList).1,
    (resolve_first_match_spec [] none "b".toList).2.2.2.1⟩

/-- C8: when `all` is set, `XS.cat` performs no context resolution — the
options passed to `_cat` carry `context := none` whatever `context` was
supplied and whatever the store contains — and the issued query carries
`all=true` and no `context=` parameter. -/
theorem cat_all_ignores_context (frames : List Frame) (env : Option Str)
    (follow : Bool) (pulse : Option Int) (tail : Bool) (last_id : Option Str)
    (limit : Option Int) (context : Option Str) :
    XScat_options frames env follow pulse tail last_id limit context true =
      .ok { follow := follow, tail := tail, all := true, last_id := last_id,
            limit := limit, pulse := pulse, context := none } ∧
    "all=true".toList ∈ catParams
      { follow := follow, tail := tail, all := true, last_id := last_id,
        limit := limit, pulse := pulse, context := none } ∧
    (catParams { follow := follow, tail := tail, all := true,
                 last_id := last_id, limit := limit, pulse := pulse,
                 context := none }).all
      (fun p => !("context=".toList).isPrefixOf p) = true := by
  refine ⟨?_, ?_, ?_⟩
  · rw [XScat_options, if_neg (by simp)]
  · simp [catParams]
  · rw [List.all_eq_true]
    intro p hp
    simp only [catParams, List.mem_append] at hp
    rcases hp with ((((((hp | hp) | hp) | hp) | hp) | hp) | hp)
    · rcases follow <;> simp_all
      subst hp
      decide
    · rcases tail <;> simp_all
      subst hp
      decide
    · simp at hp
      subst hp
      decide
    · rcases last_id with _ | v <;> simp_all
      rcases hp with ⟨-, rfl⟩
      rfl
    · rcases limit with _ | n <;> simp_all
      rcases hp with ⟨-, rfl⟩
      rfl
    · rcases pulse with _ | n <;> simp_all
      rcases hp with ⟨-, rfl⟩
      rfl
    · simp at hp

/-- Witness for C8 at concrete inputs. -/
theorem cat_all_ignores_context_witness :
    XScat_options [] none false none false none none (some "ctx".toList) true =
      .ok { all := true } ∧
    "all=true".toList ∈ catParams { all := true } ∧
    (catParams { all := true }).all
      (fun p => !("context=".toList).isPrefixOf p) = true :=
  cat_all_ignores_context [] none false none false none none (some "ctx".toList)

/-- C1 counterexample: the valid two-chunk body with payloads `"ab"`, `"cd"`
decodes to `"ab\ncd"` — the chunks' lines joined with `\n` — and not to the
concatenation `"abcd"` of the chunk data, so chunked decoding does not
reconstruct the original unchunked byte sequence in general. -/
theorem chunked_decode_not_concat_counterexample :
    encodeChunked ["ab".toList, "cd".toList] =
      "2\r\nab\r\n2\r\ncd\r\n0\r\n\r\n".toList ∧
    decodeChunked "2\r\nab\r\n2\r\ncd\r\n0\r\n\r\n".toList =
      some "ab\ncd".toList ∧
    some "ab\ncd".toList ≠ some ("ab".toList ++ "cd".toList) := by
  have h2 : natToHex 2 = ['2'] := by
    rw [natToHex]
    norm_num
    decide
  refine ⟨?_, by decide, by decide⟩
  simp [encodeChunked, encodeChunk, h2, crlf]

/-- C3 counterexample: for a follow call with `limit=5`, the backlog request
of `_cat_stream` keeps nothing (its path is empty), while the claim's
"identical except without follow" request would carry `?limit=5`; the
`limit` (like `tail`, `all`, `last_id`, `pulse`) is dropped. -/
theorem follow_backlog_drops_limit_counterexample :
    backlogOptions (catPath { follow := true, limit := some 5 }) =
      ({} : CatOptions) ∧
    catPath (backlogOptions (catPath { follow := true, limit := some 5 })) = [] ∧
    catPath { follow := false, limit := some 5 } = "?limit=5".toList ∧
    ([] : Str) ≠ "?limit=5".toList := by
  refine ⟨by decide, by decide, by decide, by decide⟩

theorem contains_eq_false_of_not_mem {l : Str} {a : Char} (h : a ∉ l) :
    l.contains a = false := by
  simp [List.contains, h]

theorem splitChar_no_sep {sep : Char} {c : Str} (h : sep ∉ c) :
    splitChar sep c = [c] := by
  induction c with
  | nil => rfl
  | cons d t ih =>
    unfold splitChar
    rw [if_neg (by rintro rfl; exact h (List.mem_cons_self _ _))]
    rw [ih (fun hm => h (List.mem_cons_of_mem _ hm))]

/-- Splitting at `"context="` when the key occurs exactly once, at the
boundary. -/
theorem splitContextEq_append {a c : Str}
    (hpre : ∀ i, i < a.length → ¬ ctxEq <+: (a ++ ctxEq).drop i)
    (hcc : containsSub c ctxEq = false) :
    splitContextEq (a ++ (ctxEq ++ c)) = [a, c] := by
  have h1 : firstSubIdx ctxEq (a ++ (ctxEq ++ c)) = some a.length := by
    have := firstSubIdx_append (b := c) hpre
    rwa [List.append_assoc] at this
  rw [splitContextEq]
  split
  · rename_i heq
    rw [h1] at heq
    cases heq
  · rename_i i heq
    rw [h1] at heq
    injection heq with hi
    subst hi
    rw [List.take_left]
    rw [← List.append_assoc, List.drop_left' (by simp)]
    rw [splitContextEq]
    split
    · rfl
    · rename_i j heq2
      rw [firstSubIdx_eq_none_of_not_contains hcc] at heq2
      cases heq2

/-- Backlog option reconstruction: from a path of the shape
`a ++ "context=" ++ c` the context value `c` is recovered and nothing else
is set. -/
theorem backlogOptions_extract {a c : Str}
    (hpre : ∀ i, i < a.length → ¬ ctxEq <+: (a ++ ctxEq).drop i)
    (hcc : containsSub c ctxEq = false) (hamp : '&' ∉ c) :
    backlogOptions (a ++ (ctxEq ++ c)) =
      { follow := false, context := some c } := by
  have h1 : firstSubIdx ctxEq (a ++ (ctxEq ++ c)) = some a.length := by
    have := firstSubIdx_append (b := c) hpre
    rwa [List.append_assoc] at this
  unfold backlogOptions
  rw [if_pos (by simp [containsSub, h1])]
  rw [splitContextEq_append hpre hcc]
  simp [splitChar_no_sep hamp]

/-- The assembled path of a representative follow call carrying every
optional parameter. -/
theorem catPath_full_options (c : Str) (hcne : c ≠ []) :
    catPath { follow := true, tail := true, all := false,
              last_id := some "x".toList, limit := some 5, pulse := some 7,
              context := some c } =
      "?follow=true&tail=true&last_id=x&limit=5&pulse=7&context=".toList ++ c := by
  have h5 : intToDec 5 = ['5'] := rfl
  have h7 : intToDec 7 = ['7'] := rfl
  simp only [catPath, catParams, joinAmp, h5, h7, if_pos, if_neg, hcne]
  simp [joinAmp, hcne]

/-- C3 amended: the backlog request of a follow-mode read is *not* identical
to the non-follow call minus `follow`; it preserves only the `context`
parameter, recovered by splitting the assembled path at `"context="`
(`tail`, `all`, `last_id`, `limit` and `pulse` are all dropped — the
reconstructed options carry none of them for any path), and the stream
yields the whole backlog before any live frame. -/
theorem follow_backlog_preserves_only_context (c path : Str)
    (bn : PyResult Str) (ld : Str) (bl : List Str) (hcne : c ≠ [])
    (hamp : '&' ∉ c) (hcc : containsSub c ctxEq = false)
    (hbl : cat_nonfollow_run bn = some (.ok bl)) :
    (backlogOptions path).follow = false ∧
    (backlogOptions path).tail = false ∧
    (backlogOptions path).all = false ∧
    (backlogOptions path).last_id = none ∧
    (backlogOptions path).limit = none ∧
    (backlogOptions path).pulse = none ∧
    backlogOptions (catPath { follow := true, tail := true, all := false,
                              last_id := some "x".toList, limit := some 5,
                              pulse := some 7, context := some c }) =
      { follow := false, context := some c } ∧
    catStreamRun bn ld = some (bl ++ streamKeptLines ld) := by
  refine ⟨rfl, rfl, rfl, rfl, rfl, rfl, ?_, ?_⟩
  · rw [catPath_full_options c hcne]
    rw [show "?follow=true&tail=true&last_id=x&limit=5&pulse=7&context=".toList =
      "?follow=true&tail=true&last_id=x&limit=5&pulse=7&".toList ++ ctxEq by decide]
    rw [List.append_assoc]
    exact backlogOptions_extract (by decide) hcc hamp
  · unfold catStreamRun
    rw [hbl]

/-- Witness for C3 amended at a concrete context value and a concrete
(successful, empty-bodied) backlog exchange. -/
theorem follow_backlog_preserves_only_context_witness :
    ("abc".toList ≠ [] ∧ '&' ∉ "abc".toList ∧
      containsSub "abc".toList ctxEq = false ∧
      cat_nonfollow_run (.ok "".toList) = some (.ok [])) ∧
    (backlogOptions (catPath { follow := true, tail := true, all := false,
                               last_id := some "x".toList, limit := some 5,
                               pulse := some 7, context := some "abc".toList }) =
      { follow := false, context := some "abc".toList } ∧
    catStreamRun (.ok "".toList) "live\n".toList =
      some ([] ++ streamKeptLines "live\n".toList)) := by
  refine ⟨⟨by decide, by decide, by decide, by decide⟩, ?_, ?_⟩
  · exact (follow_backlog_preserves_only_context "abc".toList [] (.ok "".toList)
      "live\n".toList [] (by decide) (by decide) (by decide) (by decide)).2.2.2.2.2.2.1
  · exact (follow_backlog_preserves_only_context "abc".toList [] (.ok "".toList)
      "live\n".toList [] (by decide) (by decide) (by decide) (by decide)).2.2.2.2.2.2.2

theorem encodeChunked_cons (d : Str) (cs : List Str) :
    encodeChunked (d :: cs) = encodeChunk d ++ encodeChunked cs := by
  simp [encodeChunked, List.append_assoc]

theorem encodeChunked_length_pos (cs : List Str) :
    0 < (encodeChunked cs).length := by
  simp [encodeChunked, crlf]

theorem natToHex_no_cr (n : Nat) : ∀ c ∈ natToHex n, c ≠ '\r' :=
  fun c hc => hexDigitVal?_ne (by decide) (natToHex_all_hex n c hc)

theorem natToHex_no_semi (n : Nat) : ';' ∉ natToHex n := by
  intro hm
  have h := natToHex_all_hex n ';' hm
  rw [show hexDigitVal? ';' = none from rfl] at h
  simp at h

/-- The decoding loop of `request`, run over a well-formed chunked body in
which every chunk is nonempty and free of line boundaries, appends exactly
the chunk payloads to the accumulated lines. -/
theorem decodeChunkedAux_encode (cs : List Str) :
    ∀ (fuel : Nat) (pre : Str) (acc : List Str),
      (∀ d ∈ cs, d ≠ []) →
      cs.length < fuel →
      decodeChunkedAux fuel (pre ++ encodeChunked cs) (pre.length : Int) acc =
        some (List.intercalate ['\n'] (acc ++ cs.flatMap pySplitlines)) := by
  induction cs with
  | nil =>
    intro fuel pre acc _ hfuel
    rcases fuel with _ | f
    · omega
    have hT : encodeChunked [] = ['0'] ++ '\r' :: '\n' :: ('\r' :: '\n' :: []) := by
      simp [encodeChunked, crlf]
    have hlt : (pre.length : Int) < ((pre ++ encodeChunked []).length : Int) := by
      have := encodeChunked_length_pos []
      simp only [List.length_append]
      push_cast
      omega
    have hfind : pyFind crlf (pre ++ encodeChunked []) (pre.length : Int) =
        some (1 + pre.length) := by
      rw [pyFind_natCast crlf _ (by simp), List.drop_left, hT,
        firstSubIdx_crlf_after (by decide)]
      rfl
    have hslice : pySlice (pre ++ encodeChunked []) (pre.length : Int)
        ((1 + pre.length : Nat) : Int) = ['0'] := by
      rw [Nat.add_comm 1 pre.length]
      rw [show pre ++ encodeChunked [] =
        pre ++ ['0'] ++ ('\r' :: '\n' :: ('\r' :: '\n' :: [])) by
          rw [hT, List.append_assoc]]
      exact pySlice_middle pre ['0'] _
    rw [decodeChunkedAux]
    simp only [hlt, if_true, hfind, hslice]
    simp only [show pyStrip ['0'] = ['0'] from rfl,
      show (['0'] : Str).contains ';' = false from rfl, Bool.false_eq_true,
      if_false]
    simp only [show pyIntHex? ['0'] = some 0 from rfl]
    simp
  | cons d cs' ih =>
    intro fuel pre acc h hfuel
    rcases fuel with _ | f
    · omega
    have hd := h d (List.mem_cons_self d cs')
    set hex := natToHex d.length with hhex
    have hX : encodeChunked (d :: cs') =
        hex ++ '\r' :: '\n' :: (d ++ '\r' :: '\n' :: encodeChunked cs') := by
      rw [encodeChunked_cons]
      simp [encodeChunk, crlf, hhex, List.append_assoc]
    have hlt : (pre.length : Int) < ((pre ++ encodeChunked (d :: cs')).length : Int) := by
      have := encodeChunked_length_pos (d :: cs')
      simp only [List.length_append]
      push_cast
      omega
    have hfind : pyFind crlf (pre ++ encodeChunked (d :: cs')) (pre.length : Int) =
        some (hex.length + pre.length) := by
      rw [pyFind_natCast crlf _ (by simp), List.drop_left, hX,
        firstSubIdx_crlf_after (natToHex_no_cr d.length)]
      rfl
    have hslice : pySlice (pre ++ encodeChunked (d :: cs')) (pre.length : Int)
        ((hex.length + pre.length : Nat) : Int) = hex := by
      rw [Nat.add_comm hex.length pre.length]
      rw [show pre ++ encodeChunked (d :: cs') =
        pre ++ hex ++ ('\r' :: '\n' :: (d ++ '\r' :: '\n' :: encodeChunked cs')) by
          rw [hX, List.append_assoc]]
      exact pySlice_middle pre hex _
    have hstrip : pyStrip hex = hex :=
      pyStrip_eq_self (fun c hc => hexDigit_not_space (natToHex_all_hex d.length c hc))
    have hsemi : hex.contains ';' = false :=
      contains_eq_false_of_not_mem (natToHex_no_semi d.length)
    have hparse : pyIntHex? hex = some (d.length : Int) := pyIntHex?_natToHex d.length
    have hne0 : ¬ ((d.length : Int) = 0) := by
      have : d.length ≠ 0 := by
        intro h0
        exact hd (List.length_eq_zero.mp h0)
      exact_mod_cast this
    have hdata : pySlice (pre ++ encodeChunked (d :: cs'))
        (((hex.length + pre.length : Nat) : Int) + 2)
        (((hex.length + pre.length : Nat) : Int) + 2 + (d.length : Int)) = d := by
      have hP : pre ++ encodeChunked (d :: cs') =
          (pre ++ hex ++ ['\r', '\n']) ++ d ++ ('\r' :: '\n' :: encodeChunked cs') := by
        rw [hX]
        simp [List.append_assoc]
      have hcast1 : (((hex.length + pre.length : Nat) : Int) + 2) =
          (((pre ++ hex ++ ['\r', '\n']).length : Nat) : Int) := by
        simp
        ring
      have hcast2 : (((hex.length + pre.length : Nat) : Int) + 2 + (d.length : Int)) =
          ((((pre ++ hex ++ ['\r', '\n']).length + d.length : Nat) : Int)) := by
        simp
        ring
      rw [hcast2, hcast1, hP]
      exact pySlice_middle _ d _
    have hpos : (((hex.length + pre.length : Nat) : Int) + 2 + (d.length : Int) + 2) =
        (((pre ++ encodeChunk d).length : Nat) : Int) := by
      simp [encodeChunk, crlf, hhex]
      ring
    have hbodyrw : pre ++ encodeChunked (d :: cs') =
        (pre ++ encodeChunk d) ++ encodeChunked cs' := by
      rw [encodeChunked_cons, List.append_assoc]
    rw [decodeChunkedAux]
    simp only [hlt, if_true, hfind, hslice, hstrip, hsemi, Bool.false_eq_true,
      if_false, hparse, hne0, hdata, hpos]
    rw [hbodyrw]
    rw [ih f (pre ++ encodeChunk d) (acc ++ pySplitlines d)
      (fun e he => h e (List.mem_cons_of_mem d he)) (by simp at hfuel ⊢; omega)]
    simp

/-- The chunk count is bounded by the encoded length. -/
theorem encodeChunked_length_ge (cs : List Str) :
    cs.length < (encodeChunked cs).length + 1 := by
  induction cs with
  | nil => simp
  | cons d cs' ih =>
    rw [encodeChunked_cons]
    have : 0 < (encodeChunk d).length := by
      have := natToHex_ne_nil d.length
      simp [encodeChunk, crlf]
    simp only [List.length_cons, List.length_append]
    omega

/-- C1 amended: decoding any valid chunked body — every chunk nonempty,
since a zero-size chunk is the terminator — yields the concatenation of
each chunk's lines (its data split at line boundaries) joined with `\n`.
This equals the concatenation of the raw chunk data only when that join
coincides with it; in particular `"4\r\ntest\r\n0\r\n\r\n"` decodes to
`"test"`, while a chunk `"a\r\nb"` decodes to `"a\nb"`. -/
theorem chunked_decode_joins_chunk_lines (cs : List Str)
    (h : ∀ d ∈ cs, d ≠ []) :
    decodeChunked (encodeChunked cs) =
      some (List.intercalate ['\n'] (cs.flatMap pySplitlines)) := by
  have := decodeChunkedAux_encode cs ((encodeChunked cs).length + 1) [] [] h
    (encodeChunked_length_ge cs)
  simpa [decodeChunked] using this

/-- Witness for C1 amended: the spec's own example, a single-chunk body
whose payload `"test"` is reproduced exactly, and a chunk with an internal
`\r\n` whose lines are rejoined with `\n`. -/
theorem chunked_decode_joins_chunk_lines_witness :
    encodeChunked ["test".toList] = "4\r\ntest\r\n0\r\n\r\n".toList ∧
    decodeChunked "4\r\ntest\r\n0\r\n\r\n".toList = some "test".toList ∧
    encodeChunked ["a\r\nb".toList] = "4\r\na\r\nb\r\n0\r\n\r\n".toList ∧
    decodeChunked "4\r\na\r\nb\r\n0\r\n\r\n".toList = some "a\nb".toList := by
  have h4 : natToHex 4 = ['4'] := by
    rw [natToHex]
    norm_num
    decide
  have henc : encodeChunked ["test".toList] = "4\r\ntest\r\n0\r\n\r\n".toList := by
    simp [encodeChunked, encodeChunk, h4, crlf]
  have henc2 : encodeChunked ["a\r\nb".toList] = "4\r\na\r\nb\r\n0\r\n\r\n".toList := by
    simp [encodeChunked, encodeChunk, h4, crlf]
  refine ⟨henc, ?_, henc2, ?_⟩
  · have := chunked_decode_joins_chunk_lines ["test".toList] (by decide)
    rw [henc] at this
    simpa using this
  · have := chunked_decode_joins_chunk_lines ["a\r\nb".toList] (by decide)
    rw [henc2] at this
    rw [this]
    decide

/-- Witness for C10 at a concrete destination and frame list. -/
theorem export_existing_path_untouched_witness :
    exportRun "p".toList true ["f".toList] (fun _ => none) (fun _ => [])
        (fun h => h) = [.printMsg "path exists".toList] ∧
    Effect.makedirs ("p".toList ++ "/cas".toList) ∈
      exportRun "p".toList false ["f".toList] (fun _ => none) (fun _ => [])
        (fun h => h) :=
  ⟨(export_existing_path_untouched "p".toList ["f".toList] (fun _ => none)
      (fun _ => []) (fun h => h)).1,
   (export_existing_path_untouched "p".toList ["f".toList] (fun _ => none)
      (fun _ => []) (fun h => h)).2.1⟩
